import Mathlib

/-!
Verification development for the `openedu_builder` Docusaurus plugin
(`openedu_builder/plugins/docusaurus.py`).

The development shallowly embeds the two core routines,
`DocusaurusPlugin._parse_structure` (copy-plan and sidebar construction) and
`DocusaurusPlugin._resolve_links` (relative-link rewriting), together with the
Python path primitives they rely on (`os.path.join`, `os.path.dirname`,
`os.path.basename`, `os.path.normpath`, `os.path.relpath`, `str.replace`,
`str.rstrip`/`lstrip`/`strip`, the two link regexes, and the set/dict data
flow).  Strings are modelled as `List Char`; the filesystem as an explicit
finite structure.  The helpers `path_utils.real_join` and `path_utils.stem`
live outside the embedded file, so they are modelled from the specification
(see their doc comments).
-/

set_option maxRecDepth 10000

abbrev Str := List Char

namespace OpenEdu

/-! ## Python string primitives -/

/-- Python `str.rstrip("/")`: drop trailing slashes. -/
def rstripSlash (p : Str) : Str := (p.reverse.dropWhile (· = '/')).reverse

/-- Python `str.lstrip("/")`: drop leading slashes. -/
def lstripSlash (p : Str) : Str := p.dropWhile (· = '/')

/-- Python `str.strip("/")`: drop slashes on both ends. -/
def stripSlash (p : Str) : Str := lstripSlash (rstripSlash p)

/-- Python `str.startswith` on our string model. -/
def startsWith (pre p : Str) : Bool := pre.isPrefixOf p

/-- Python `str.removeprefix`: drop `pre` when it is a leading substring, else
return the string unchanged. -/
def removePre (p pre : Str) : Str :=
  if pre.isPrefixOf p then p.drop pre.length else p

/-- Helper for `str.replace`: scan the string left to right; a pending
`skip` counter consumes the remainder of a match that has already been
replaced.  Structurally recursive so that it evaluates by `rfl`/`decide`. -/
def replaceAux (pat repl : Str) : Nat → Str → Str
  | _+1, [] => []
  | skip+1, _ :: rest => replaceAux pat repl skip rest
  | 0, [] => []
  | 0, c :: rest =>
      if pat.isPrefixOf (c :: rest) then repl ++ replaceAux pat repl (pat.length - 1) rest
      else c :: replaceAux pat repl 0 rest

/-- Python `s.replace(pat, repl)`: replace every non-overlapping occurrence,
scanning left to right.  (The `pat = []` corner of Python inserts `repl`
between all characters; the embedded code never calls `replace` with an
empty pattern, and we return `s` unchanged there.) -/
def pyReplace (s pat repl : Str) : Str :=
  if pat = [] then s else replaceAux pat repl 0 s

/-- Does `pat` occur as a contiguous substring of `s`? -/
def occursIn (pat : Str) : Str → Bool
  | [] => pat.isPrefixOf []
  | c :: rest => pat.isPrefixOf (c :: rest) || occursIn pat rest

/-! ## posixpath primitives (CPython `posixpath.py`) -/

/-- Does the path start with the separator (`os.path.isabs`)? -/
def isAbs (p : Str) : Bool := p.head? = some '/'

/-- Python `str.split("/")`: split on every separator, keeping empty chunks. -/
def splitSep : Str → List Str
  | [] => [[]]
  | c :: cs =>
    match splitSep cs with
    | [] => [[]]
    | p :: ps => if c = '/' then [] :: p :: ps else (c :: p) :: ps

/-- Python `"/".join(parts)`. -/
def interSlash : List Str → Str
  | [] => []
  | [c] => c
  | c :: c' :: cs => c ++ '/' :: interSlash (c' :: cs)

/-- Two-argument `os.path.join(a, b)` (posix): an absolute second argument
replaces the first; otherwise insert a separator unless one is already
there. -/
def pyJoin (a b : Str) : Str :=
  if isAbs b then b
  else if a = [] ∨ a.getLast? = some '/' then a ++ b
  else a ++ '/' :: b

/-- Index of the last `/` in the string, if any. -/
def rfindSlashAux : Str → Nat → Option Nat → Option Nat
  | [], _, best => best
  | c :: rest, i, best => rfindSlashAux rest (i+1) (if c = '/' then some i else best)

/-- Python `os.path.dirname` (posix): everything before the final separator, with
trailing separators stripped unless the head is all separators. -/
def dirname (p : Str) : Str :=
  let i := ((rfindSlashAux p 0 none).map (· + 1)).getD 0
  let head := p.take i
  if head ≠ [] ∧ head ≠ List.replicate i '/' then rstripSlash head else head

/-- Python `os.path.basename` (posix): everything after the final separator. -/
def basename (p : Str) : Str :=
  let i := ((rfindSlashAux p 0 none).map (· + 1)).getD 0
  p.drop i

/-- The component `".."`. -/
def dotdot : Str := ['.', '.']

/-- Number of leading slashes as counted by `posixpath.normpath` (one or,
for the POSIX double-slash special case, two). -/
def initSlashes : Str → Nat
  | '/' :: '/' :: '/' :: _ => 1
  | '/' :: '/' :: _ => 2
  | '/' :: _ => 1
  | _ => 0

/-- One step of the `posixpath.normpath` component loop: empty components and
`"."` vanish; `".."` pops the accumulator except at an absolute root or when
it would pop another `".."`. -/
def normStep (slashes : Nat) (acc : List Str) (comp : Str) : List Str :=
  if comp = [] ∨ comp = ['.'] then acc
  else if comp = dotdot then
    (if (slashes = 0 ∧ acc = []) ∨ acc.getLast? = some dotdot then acc ++ [comp]
     else if acc ≠ [] then acc.dropLast else acc)
  else acc ++ [comp]

/-- Python `posixpath.normpath`: collapse `.`/`..`/empty components textually. -/
def normpath (p : Str) : Str :=
  if p = [] then ['.']
  else
    let slashes := initSlashes p
    let ncomps := (splitSep p).foldl (normStep slashes) []
    let out := List.replicate slashes '/' ++ interSlash ncomps
    if out = [] then ['.'] else out

/-- Nonempty components of a split path (`[x for x in p.split(sep) if x]`). -/
def compsOf (p : Str) : List Str := (splitSep p).filter (· ≠ [])

/-- Length of the longest common leading run of two component lists
(`os.path.commonprefix` on lists). -/
def commonLen : List Str → List Str → Nat
  | a :: as, b :: bs => if a = b then 1 + commonLen as bs else 0
  | _, _ => 0

/-- Python `os.path.relpath(path, start)` (posix) for absolute inputs: normalize
both, drop the common component run, climb with `..` and descend with the
remainder. -/
def relpath (path start : Str) : Str :=
  let pl := compsOf (normpath path)
  let sl := compsOf (normpath start)
  let i := commonLen sl pl
  let rel := List.replicate (sl.length - i) dotdot ++ pl.drop i
  if rel = [] then ['.'] else interSlash rel

/-! ## path_utils (not under the embedded sources; modelled from the spec) -/

/-- Modelled from the spec: `path_utils.real_join` joins a
possibly-relative-or-absolute fragment against a base and yields the
textual (normalized) resolution, as required by the link-resolution
algorithm ("Resolve the link textually against the originating
source directory of the file"). -/
def real_join (base frag : Str) : Str := normpath (pyJoin base frag)

/-- Modelled from the spec: `path_utils.stem` extracts the filename stem —
the final path component with its last extension removed. -/
def stem (p : Str) : Str :=
  let name := basename p
  match rfindDotAux name 0 none with
  | some i => if 0 < i then name.take i else name
  | none => name
where
  /-- Index of the last `.` in the string, if any. -/
  rfindDotAux : Str → Nat → Option Nat → Option Nat
    | [], _, best => best
    | c :: rest, i, best => rfindDotAux rest (i+1) (if c = '.' then some i else best)

/-- Python `urllib.parse.unquote` restricted to single-byte percent escapes (the
embedded titles are ASCII). -/
def unquote : Str → Str
  | '%' :: a :: b :: rest =>
    match hexVal a, hexVal b with
    | some x, some y => Char.ofNat (16 * x + y) :: unquote rest
    | _, _ => '%' :: unquote (a :: b :: rest)
  | c :: rest => c :: unquote rest
  | [] => []
where
  /-- Hexadecimal value of one digit. -/
  hexVal (c : Char) : Option Nat :=
    if '0' ≤ c ∧ c ≤ '9' then some (c.toNat - '0'.toNat)
    else if 'a' ≤ c ∧ c ≤ 'f' then some (c.toNat - 'a'.toNat + 10)
    else if 'A' ≤ c ∧ c ≤ 'F' then some (c.toNat - 'A'.toNat + 10)
    else none

end OpenEdu

namespace OpenEdu

/-! ## Filesystem model

`_organize_files` has copied everything before `_resolve_links` runs, so a
single snapshot holds both the source tree and the populated destination
tree.  Files carry their text content. -/

structure FS where
  files : List (Str × Str)
  dirs : List Str
deriving DecidableEq

/-- Python `os.path.isfile`. -/
def FS.isFile (fs : FS) (p : Str) : Bool := fs.files.any (fun e => e.1 = p)

/-- Python `os.path.isdir`. -/
def FS.isDir (fs : FS) (p : Str) : Bool := fs.dirs.any (fun d => d = p)

/-- Python `os.path.exists`. -/
def FS.pathExists (fs : FS) (p : Str) : Bool := fs.isFile p || fs.isDir p

/-- Reading a file, `open(p).read()` (the embedded code only reads files it has checked to
exist). -/
def FS.read (fs : FS) (p : Str) : Str :=
  ((fs.files.find? (fun e => e.1 = p)).map (fun e => e.2)).getD []

/-- Writing a file, `open(p, "w").write(c)`: overwrite the content (creating the
entry when absent). -/
def FS.write (fs : FS) (p c : Str) : FS :=
  if fs.isFile p then
    ⟨fs.files.map (fun e => if e.1 = p then (p, c) else e), fs.dirs⟩
  else ⟨fs.files ++ [(p, c)], fs.dirs⟩

/-! ## Python dict as insertion-ordered association list -/

/-- Assignment `d[k] = v` on a Python dict: overwrite in place when the key exists,
else append (insertion order preserved). -/
def dictInsert (d : List (Str × Str)) (k v : Str) : List (Str × Str) :=
  if d.any (fun e => e.1 = k) then d.map (fun e => if e.1 = k then (k, v) else e)
  else d ++ [(k, v)]

/-- Lookup `d.get(k)` on a Python dict. -/
def dictGet? (d : List (Str × Str)) (k : Str) : Option Str :=
  (d.find? (fun e => e.1 = k)).map (fun e => e.2)

/-- Key enumeration `list(d.keys())`. -/
def dictKeys (d : List (Str × Str)) : List Str := d.map (fun e => e.1)

/-! ## The structure description (§3 StructureNode)

Each entry of the declarative structure is a single-key mapping from a
title to one of: a plain string (one document), a nested ordered list, or a
section object with optional `path`, `extra` and `subsections` fields
(`SSubs.missing` models a section dict without the `"subsections"` key). -/

mutual
inductive SVal : Type where
  | vstr : Str → SVal
  | vlist : SList → SVal
  | vsec : Option Str → List Str → SSubs → SVal
deriving DecidableEq
inductive SSubs : Type where
  | missing : SSubs
  | given : SList → SSubs
deriving DecidableEq
inductive SList : Type where
  | snil : SList
  | scons : Str → SVal → SList → SList
deriving DecidableEq
end

/-- The `subsections` list the copy pass recurses into:
`v.get("subsections", [])`. -/
def SSubs.getD : SSubs → SList
  | .missing => .snil
  | .given l => l

/-! ## `_parse_copy`: the copy plan

The pass walks the structure carrying a source base and a destination base
and emits `(source, destination)` pairs in traversal order; `_parse_copy`
accumulates them into a Python `set`, modelled below by first-occurrence
deduplication of the traversal list. -/

mutual
/-- Entries contributed by one `key: value` binding of a structure dict
(the three `isinstance` branches of `_parse_copy`). -/
def parseCopyV : SVal → Str → Str → Str → List (Str × Str)
  | .vstr v, src, dst, k => [(real_join src v, pyJoin dst (dirname k))]
  | .vsec path? extra .missing, src, dst, k =>
      -- `v.get("subsections", [])` recursed into the empty default, a no-op
      let d := pyJoin dst k
      let s := real_join src (path?.getD [])
      (extra.map (fun e =>
        let e' := rstripSlash e
        (real_join s e', real_join d (stem e')))) ++ []
  | .vsec path? extra (.given items), src, dst, k =>
      let d := pyJoin dst k
      let s := real_join src (path?.getD [])
      (extra.map (fun e =>
        let e' := rstripSlash e
        (real_join s e', real_join d (stem e')))) ++ parseCopyL items s d
  | .vlist items, src, dst, k => parseCopyL items src (pyJoin dst k)
/-- Entries contributed by a list of structure items. -/
def parseCopyL : SList → Str → Str → List (Str × Str)
  | .snil, _, _ => []
  | .scons k v rest, src, dst => parseCopyV v src dst k ++ parseCopyL rest src dst
end

/-- Python `set` semantics over the traversal order: keep the first
occurrence of each pair. -/
def setDedup (l : List (Str × Str)) : List (Str × Str) :=
  l.foldl (fun acc e => if acc.contains e then acc else acc ++ [e]) []

/-- The copy plan (`self.structure["to_copy"]`), as the deduplicated
traversal list.  Python iterates the set in an unspecified order; theorems
that depend on an order take the entry list as an explicit parameter. -/
def toCopy (src dst : Str) (structure_ : SList) : List (Str × Str) :=
  setDedup (parseCopyL structure_ src dst)

/-! ## `_parse_sidebar`: the navigation tree -/

/-- Errors surfaced by the embedded passes: an unhandled `KeyError` from a
dict subscript, or the own `PluginRunError` of the plugin. -/
inductive PErr : Type where
  | keyError : Str → PErr
  | pluginRunError : Str → PErr
deriving DecidableEq

mutual
/-- A sidebar node: `{"title": ..., "id": ...}`, plus a `"children"` key
exactly when the structure value was a list or a section dict. -/
inductive SbNode : Type where
  | mk : Str → Str → SbKids → SbNode
deriving DecidableEq
inductive SbKids : Type where
  | noKids : SbKids
  | kids : SbList → SbKids
deriving DecidableEq
inductive SbList : Type where
  | snil : SbList
  | scons : SbNode → SbList → SbList
deriving DecidableEq
end

/-- Document id of the node. -/
def SbNode.id : SbNode → Str
  | .mk _ i _ => i

mutual
/-- The function `_parse_sidebar(k, v, path)`: build one navigation node.  A section
dict subscripts `v["subsections"]` unguarded, so a missing key raises
`KeyError`. -/
def parseSidebar (k : Str) (v : SVal) (path : Str) : Except PErr SbNode :=
  let title := unquote (stripSlash k)
  match v with
  | .vlist items => do
      let cs ← parseSidebarL items (path ++ k ++ ['/'])
      pure (.mk title (path ++ k) (.kids cs))
  | .vsec _ _ .missing => .error (.keyError "subsections".data)
  | .vsec _ _ (.given items) => do
      let cs ← parseSidebarL items (path ++ k ++ ['/'])
      pure (.mk title (path ++ k) (.kids cs))
  | .vstr v' =>
      let path' := if dirname k ≠ [] then path ++ dirname k ++ ['/'] else path
      let id :=
        if stem v' ≠ [] then path' ++ stem v'
        else if stem k ≠ [] then path' ++ stem k
        else path' ++ "README".data
      pure (.mk title id .noKids)
/-- The recursion over a list of structure items (each contributes the node
built from its single `key: value` binding). -/
def parseSidebarL : SList → Str → Except PErr SbList
  | .snil, _ => pure .snil
  | .scons k v rest, path => do
      let n ← parseSidebar k v path
      let ns ← parseSidebarL rest path
      pure (.scons n ns)
end

/-! ## `_resolve_links` -/

mutual
/-- The walk `_walk_struct`: collect the ids of navigation entries without a truthy
(= present and nonempty) `children` list. -/
def walkStruct : SbNode → List Str
  | .mk _ id .noKids => [id]
  | .mk _ id (.kids .snil) => [id]
  | .mk _ _ (.kids (.scons c cs)) => walkStructL (.scons c cs)
/-- The walk `_walk_struct` over a child list. -/
def walkStructL : SbList → List Str
  | .snil => []
  | .scons n rest => walkStruct n ++ walkStructL rest
end

/-- Number of path segments used as the sort key for candidate source
prefixes: `len(x.strip("/").split(os.path.sep))`. -/
def segCount (x : Str) : Nat := (splitSep (stripSlash x)).length

/-- Stable insertion of `x` in front of the first element with at most as
many segments. -/
def insertBySegs (x : Str) : List Str → List Str
  | [] => [x]
  | y :: ys => if segCount y ≤ segCount x then x :: y :: ys else y :: insertBySegs x ys

/-- Python `sorted(keys, key=lambda x: len(x.strip("/").split(sep)), reverse=True)`:
a stable sort by descending segment count. -/
def sortBySegs (l : List Str) : List Str := l.foldr insertBySegs []

/-- Build `src_to_dst` and `dst_to_src` from the copy plan: strip trailing
separators, and turn a file-into-directory entry into a file-to-file
mapping by appending the basename of the file. -/
def buildMaps (fs : FS) (to_copy : List (Str × Str)) :
    List (Str × Str) × List (Str × Str) :=
  to_copy.foldl
    (fun m sd =>
      let _src := rstripSlash sd.1
      let _dst := rstripSlash sd.2
      let _dst := if fs.isFile sd.1 ∧ fs.isDir _dst then pyJoin _dst (basename sd.1) else _dst
      (dictInsert m.1 _src _dst, dictInsert m.2 _dst _src))
    ([], [])

/-- Selection `next(x for x in _possible_src if src_ref.startswith(x))`: the first
candidate (in descending-segment order) that is a raw string prefix of the
reference. -/
def selectKey (possible : List Str) (ref : Str) : Option Str :=
  possible.find? (fun x => startsWith x ref)

/-- The space workaround applied to a computed relative link: wrap it in
angle brackets and delete every occurrence of `".md"`. -/
def fixSpaces (dst_link : Str) : Str :=
  if dst_link.contains ' ' then pyReplace ('<' :: dst_link ++ ['>']) ".md".data []
  else dst_link

/-- The per-match path computation of `_resolve_links`: resolve the link
against the originating source directory, find the covering copied unit,
re-root the remainder at the destination of the unit, relativize against
the new directory of the file, and apply the space workaround.  `none` when no
candidate matches (the warning case). -/
def computeDstLink (fs : FS) (s2d : List (Str × Str)) (possible : List Str)
    (src_dir src_link dst_dir : Str) : Option Str :=
  let src_ref := real_join src_dir src_link
  match selectKey possible src_ref with
  | none => none
  | some k =>
    let src_ref_dir := if fs.isFile k then dirname k else k
    let _dst_ref := (dictGet? s2d k).getD []
    let dst_ref_dir := if fs.isFile _dst_ref then dirname _dst_ref else _dst_ref
    let dst_ref := real_join dst_ref_dir (lstripSlash (removePre src_ref src_ref_dir))
    some (fixSpaces (relpath dst_ref dst_dir))

/-- One loop iteration over a matched link: either rewrite every occurrence
of the link text in the file content, or emit one warning (modelled as the
`(resolved reference, link text)` pair of the `log.warning` message) and
leave the content untouched. -/
def processLink (fs : FS) (s2d : List (Str × Str)) (possible : List Str)
    (src_dir dst_dir content src_link : Str) : Str × List (Str × Str) :=
  match computeDstLink fs s2d possible src_dir src_link dst_dir with
  | none => (content, [(real_join src_dir src_link, src_link)])
  | some dst_link => (pyReplace content src_link dst_link, [])

end OpenEdu

namespace OpenEdu

/-! ## The two link patterns

`md_link_regex = \[.*?\]\((\.(?:\.)?\/.*?)\)` and
`iframe_link_regex = <iframe.*?src="(\.(?:\.)?\/.*?)".*?>`, with Python
backtracking semantics (`.` never matches a newline, lazy quantifiers
extend only on failure of the rest of the pattern, `finditer` yields
non-overlapping leftmost matches). -/

/-- Match `.*?\)` (the link body): the shortest newline-free run up to a
closing parenthesis.  Returns the body and the number of characters
consumed including the parenthesis. -/
def tryBody : Str → Option (Str × Nat)
  | ')' :: _ => some ([], 1)
  | '\n' :: _ => none
  | c :: rest => (tryBody rest).map (fun b => (c :: b.1, b.2 + 1))
  | [] => none

/-- Match `\.(?:\.)?\/.*?\)` (the captured group plus the closing
parenthesis): `./` or `../`, then the body. -/
def tryGroup : Str → Option (Str × Nat)
  | '.' :: '.' :: '/' :: rest =>
      (tryBody rest).map (fun b => ('.' :: '.' :: '/' :: b.1, b.2 + 3))
  | '.' :: '/' :: rest => (tryBody rest).map (fun b => ('.' :: '/' :: b.1, b.2 + 2))
  | _ => none

/-- Match `.*?\]\(` followed by the group: scan for the shortest
newline-free label closed by `](` whose group parses; on group failure the
lazy label extends past the `](` and scanning resumes. -/
def tryLabel : Str → Option (Str × Nat)
  | [] => none
  | c :: rest =>
    match (if c = ']' then
             match rest with
             | '(' :: rest2 => (tryGroup rest2).map (fun g => (g.1, g.2 + 2))
             | _ => none
           else none) with
    | some g => some g
    | none => if c = '\n' then none else (tryLabel rest).map (fun g => (g.1, g.2 + 1))

/-- Attempt `md_link_regex` at the start of the string; on success return
the captured group and the total match length. -/
def matchMdAt : Str → Option (Str × Nat)
  | '[' :: rest => (tryLabel rest).map (fun g => (g.1, g.2 + 1))
  | _ => none

/-- Match `.*?>` (the tail of the iframe pattern). -/
def tryIfrTail : Str → Option Nat
  | '>' :: _ => some 1
  | '\n' :: _ => none
  | _ :: rest => (tryIfrTail rest).map (· + 1)
  | [] => none

/-- Match `.*?\".*?>` after the `./`-prefix: the lazy group body up to a
quote whose tail also matches; on tail failure the body extends past the
quote. -/
def tryIfrBody : Str → Option (Str × Nat)
  | '"' :: rest =>
      (match tryIfrTail rest with
       | some t => some (([] : Str), 1 + t)
       | none => (tryIfrBody rest).map (fun b => ('"' :: b.1, b.2 + 1)))
  | '\n' :: _ => none
  | c :: rest => (tryIfrBody rest).map (fun b => (c :: b.1, b.2 + 1))
  | [] => none

/-- Match `\.(?:\.)?\/` then the iframe body. -/
def tryIfrGroup : Str → Option (Str × Nat)
  | '.' :: '.' :: '/' :: rest =>
      (tryIfrBody rest).map (fun b => ('.' :: '.' :: '/' :: b.1, b.2 + 3))
  | '.' :: '/' :: rest => (tryIfrBody rest).map (fun b => ('.' :: '/' :: b.1, b.2 + 2))
  | _ => none

/-- Match `.*?src=\"` lazily followed by the group: at each position first
try the literal `src="`; on failure (or group failure) consume one
newline-free character and continue. -/
def tryIfrMid : Str → Option (Str × Nat)
  | [] => none
  | c :: rest =>
    match (if "src=\"".data.isPrefixOf (c :: rest)
           then (tryIfrGroup ((c :: rest).drop 5)).map (fun g => (g.1, g.2 + 5))
           else none) with
    | some g => some g
    | none => if c = '\n' then none else (tryIfrMid rest).map (fun g => (g.1, g.2 + 1))

/-- Attempt `iframe_link_regex` at the start of the string. -/
def matchIfrAt (s : Str) : Option (Str × Nat) :=
  if "<iframe".data.isPrefixOf s then (tryIfrMid (s.drop 7)).map (fun g => (g.1, g.2 + 7))
  else none

/-- Python `re.finditer`: scan left to right; after a match resume right after it
(every match here consumes at least one character, tracked by the `skip`
counter to keep the recursion structural). -/
def scanAux (matchAt : Str → Option (Str × Nat)) : Nat → Str → List Str
  | _+1, [] => []
  | skip+1, _ :: rest => scanAux matchAt skip rest
  | 0, [] => []
  | 0, s@(_ :: rest) =>
    match matchAt s with
    | some (g, len) => g :: scanAux matchAt (len - 1) rest
    | none => scanAux matchAt 0 rest

/-- All captured groups of `md_link_regex` over the content. -/
def scanMd (s : Str) : List Str := scanAux matchMdAt 0 s

/-- All captured groups of `iframe_link_regex` over the content. -/
def scanIfr (s : Str) : List Str := scanAux matchIfrAt 0 s

/-! ## Per-file and whole-run resolution -/

/-- Loop body of `for file in dst_files` in `_resolve_links`: locate the
destination file (`.md`, falling back to `.mdx`), recover its originating
source directory from `dst_to_src` (an unguarded dict subscript on the
containing directory — `KeyError` when absent), and, when the file exists,
rewrite all matched links and write the file back. -/
def resolveFile (fs : FS) (docsDir : Str) (s2d d2s : List (Str × Str))
    (possible : List Str) (id : Str) : Except PErr (FS × List (Str × Str)) :=
  let f1 := pyJoin docsDir (id ++ ".md".data)
  let file := if fs.pathExists f1 then f1 else pyJoin docsDir (id ++ ".mdx".data)
  let srcDir? :=
    match dictGet? d2s file with
    | some nf => some (dirname nf)
    | none => dictGet? d2s (dirname file)
  match srcDir? with
  | none => .error (.keyError (dirname file))
  | some src_dir =>
    let dst_dir := dirname file
    if fs.pathExists file then
      let content := fs.read file
      let links := scanMd content ++ scanIfr content
      let step := links.foldl
        (fun acc l =>
          let r := processLink fs s2d possible src_dir dst_dir acc.1 l
          (r.1, acc.2 ++ r.2)) (content, ([] : List (Str × Str)))
      .ok (fs.write file step.1, step.2)
    else .ok (fs, [])

/-- The function `_resolve_links`: build the mappings from the copy plan, enumerate the
destination files from the navigation tree, and process each file in turn,
accumulating warnings.  The copy plan is passed as a list in the (otherwise
unspecified) iteration order of the Python set. -/
def resolveLinks (fs : FS) (docsDir : Str) (to_copy : List (Str × Str))
    (sidebar : SbList) : Except PErr (FS × List (Str × Str)) :=
  let maps := buildMaps fs to_copy
  let possible := sortBySegs (dictKeys maps.1)
  (walkStructL sidebar).foldlM
    (fun st id => do
      let r ← resolveFile st.1 docsDir maps.1 maps.2 possible id
      pure (r.1, st.2 ++ r.2))
    (fs, ([] : List (Str × Str)))

/-! ## Placement of a file by the copy engine (`_organize_files`)

For a directory entry, `shutil.copytree(src, dst)` places a file
`src/rel` at `dst/rel`; for a single-file entry the file lands inside the
(created) destination directory under its own basename. -/

/-- Destination location of a source path `p` that falls under the copy
plan entry `(s, d)`. -/
def copyDest (fs : FS) (s d p : Str) : Str :=
  if fs.isDir s then real_join d (lstripSlash (removePre p s))
  else pyJoin d (basename s)

end OpenEdu

namespace OpenEdu

/-! ## Normalized absolute paths

The round-trip argument for link rewriting works over paths in normal
form: absolute, with nonempty components free of `/`, `.` and `..`. -/

/-- A well-formed path component. -/
def WfComp (c : Str) : Prop := c ≠ [] ∧ c ≠ ['.'] ∧ c ≠ dotdot ∧ '/' ∉ c

instance (c : Str) : Decidable (WfComp c) := by unfold WfComp; infer_instance

/-- All components well formed. -/
def WfComps (cs : List Str) : Prop := ∀ c ∈ cs, WfComp c

instance (cs : List Str) : Decidable (WfComps cs) := by
  unfold WfComps; exact List.decidableBAll _ cs

/-- Rebuild an absolute path from components. -/
def joinAbs (cs : List Str) : Str := '/' :: interSlash cs

/-- Predicate: `p` is a normalized absolute path (not the bare root). -/
def IsNormAbs (p : Str) : Prop :=
  WfComps (compsOf p) ∧ compsOf p ≠ [] ∧ p = joinAbs (compsOf p)

instance (p : Str) : Decidable (IsNormAbs p) := by unfold IsNormAbs; infer_instance

end OpenEdu

namespace OpenEdu

/-! ## Structure-description counters (for the structural-completeness and
missing-`subsections` claims) -/

mutual
/-- Number of string-valued entries under a value. -/
def countStrV : SVal → Nat
  | .vstr _ => 1
  | .vlist items => countStrL items
  | .vsec _ _ .missing => 0
  | .vsec _ _ (.given items) => countStrL items
/-- Number of string-valued entries in a list of items. -/
def countStrL : SList → Nat
  | .snil => 0
  | .scons _ v rest => countStrV v + countStrL rest
end

mutual
/-- Number of `extra`-listed entries under a value. -/
def countExtraV : SVal → Nat
  | .vstr _ => 0
  | .vlist items => countExtraL items
  | .vsec _ extra .missing => extra.length
  | .vsec _ extra (.given items) => extra.length + countExtraL items
/-- Number of `extra`-listed entries in a list of items. -/
def countExtraL : SList → Nat
  | .snil => 0
  | .scons _ v rest => countExtraV v + countExtraL rest
end

mutual
/-- Number of list- or section-valued entries whose child list is empty
(these become navigation nodes with an empty, hence falsy, `children`
list). -/
def countEmptyV : SVal → Nat
  | .vstr _ => 0
  | .vlist .snil => 1
  | .vlist (.scons k v rest) => countEmptyL (.scons k v rest)
  | .vsec _ _ .missing => 0
  | .vsec _ _ (.given .snil) => 1
  | .vsec _ _ (.given (.scons k v rest)) => countEmptyL (.scons k v rest)
/-- Same, over a list of items. -/
def countEmptyL : SList → Nat
  | .snil => 0
  | .scons _ v rest => countEmptyV v + countEmptyL rest
end

mutual
/-- Does the value contain a section dict without a `"subsections"` key? -/
def hasMissingV : SVal → Bool
  | .vstr _ => false
  | .vlist items => hasMissingL items
  | .vsec _ _ .missing => true
  | .vsec _ _ (.given items) => hasMissingL items
/-- Same, over a list of items. -/
def hasMissingL : SList → Bool
  | .snil => false
  | .scons _ v rest => hasMissingV v || hasMissingL rest
end


/-! ## Concrete scenarios -/

/-- The structure description of the specification scenario:
`[{"Intro": "intro.md"}, {"Lessons": {"path": "lessons", "subsections":
[{"Lesson 1": "l1.md"}]}}]`. -/
def structScenario : SList :=
  .scons "Intro".data (.vstr "intro.md".data)
    (.scons "Lessons".data
      (.vsec (some "lessons".data) []
        (.given (.scons "Lesson 1".data (.vstr "l1.md".data) .snil)))
      .snil)

/-- The navigation tree the sidebar pass produces for `structScenario`. -/
def sbScenarioOut : SbList :=
  .scons (.mk "Intro".data "intro".data .noKids)
    (.scons (.mk "Lessons".data "Lessons".data
      (.kids (.scons (.mk "Lesson 1".data "Lessons/l1".data .noKids) .snil))) .snil)

/-- Post-copy filesystem of the shared-directory scenario: a lesson file
copied to `/dst/docs/Lessons` and the directory `/src/shared` copied as a
whole unit to `/dst/docs/Shared`. -/
def fsShared : FS :=
  ⟨[("/src/lessons/l1.md".data, "[see](../shared/img/fig1.png)".data),
    ("/dst/docs/Lessons/l1.md".data, "[see](../shared/img/fig1.png)".data),
    ("/src/shared/img/fig1.png".data, []),
    ("/dst/docs/Shared/img/fig1.png".data, [])],
   ["/src".data, "/src/lessons".data, "/src/shared".data, "/src/shared/img".data,
    "/dst".data, "/dst/docs".data, "/dst/docs/Lessons".data, "/dst/docs/Shared".data,
    "/dst/docs/Shared/img".data]⟩

/-- Copy plan of the shared-directory scenario (one iteration order of the
Python set). -/
def planShared : List (Str × Str) :=
  [("/src/lessons/l1.md".data, "/dst/docs/Lessons/".data),
   ("/src/shared".data, "/dst/docs/Shared".data)]

/-- Navigation tree of the shared-directory scenario. -/
def sbShared : SbList :=
  .scons (.mk "Lessons".data "Lessons".data
    (.kids (.scons (.mk "Lesson 1".data "Lessons/l1".data .noKids) .snil))) .snil

/-- Post-copy filesystem with two sibling source units `/src/a` and
`/src/ab`, the second a raw string extension of the first. -/
def fsAB : FS :=
  ⟨[("/dst/docs/AB/f.md".data, "[x](./x.png)".data),
    ("/src/ab/f.md".data, "[x](./x.png)".data),
    ("/src/ab/x.png".data, []), ("/dst/docs/AB/x.png".data, [])],
   ["/src".data, "/src/a".data, "/src/ab".data,
    "/dst".data, "/dst/docs".data, "/dst/docs/A".data, "/dst/docs/AB".data]⟩

/-- Copy plan with `/src/a` inserted before `/src/ab`. -/
def planAB : List (Str × Str) :=
  [("/src/a".data, "/dst/docs/A".data), ("/src/ab".data, "/dst/docs/AB".data)]

/-- Navigation tree with the single leaf `AB/f`. -/
def sbAB : SbList := .scons (.mk "f".data "AB/f".data .noKids) .snil

/-- Filesystem for the dangling-leaf scenario: no `ghost.md`/`ghost.mdx`
exists and `/dst/docs` itself is not a destination of any copy entry. -/
def fsGhost : FS :=
  ⟨[], ["/src/lessons".data, "/dst".data, "/dst/docs".data, "/dst/docs/Lessons".data]⟩

/-- Copy plan of the dangling-leaf scenario. -/
def planGhost : List (Str × Str) := [("/src/lessons".data, "/dst/docs/Lessons".data)]

/-- Navigation tree with the dangling leaf `ghost`. -/
def sbGhost : SbList := .scons (.mk "ghost".data "ghost".data .noKids) .snil

/-- A structure whose only entry is a list-valued key with no items. -/
def structEmptyList : SList := .scons "A".data (.vlist .snil) .snil

/-- A structure whose only entry is a section dict without the
`"subsections"` key. -/
def structMissing : SList := .scons "A".data (.vsec none [] .missing) .snil

/-! ## Splitting and joining lemmas -/

theorem splitSep_ne_nil (u : Str) : splitSep u ≠ [] := by
  induction u with
  | nil => simp [splitSep]
  | cons c cs ih =>
    simp only [splitSep]
    match h : splitSep cs with
    | [] => simp
    | p :: ps => by_cases hc : c = '/' <;> simp [hc]

theorem splitSep_cons (c : Char) (v : Str) :
    splitSep (c :: v) =
      if c = '/' then [] :: splitSep v
      else (c :: (splitSep v).headI) :: (splitSep v).tail := by
  simp only [splitSep]
  match h : splitSep v with
  | [] => exact absurd h (splitSep_ne_nil v)
  | p :: ps => by_cases hc : c = '/' <;> simp [hc]

theorem splitSep_append (u v : Str) :
    splitSep (u ++ '/' :: v) = splitSep u ++ splitSep v := by
  induction u with
  | nil =>
    match h : splitSep v with
    | [] => exact absurd h (splitSep_ne_nil v)
    | p :: ps => simp [splitSep_cons, splitSep, h]
  | cons c cs ih =>
    match h : splitSep cs with
    | [] => exact absurd h (splitSep_ne_nil cs)
    | p :: ps =>
      by_cases hc : c = '/' <;>
        simp [List.cons_append, splitSep_cons, ih, h, hc]

theorem splitSep_no_slash (u : Str) (h : '/' ∉ u) : splitSep u = [u] := by
  induction u with
  | nil => simp [splitSep]
  | cons c cs ih =>
    have hc : c ≠ '/' := fun hh => h (hh ▸ List.mem_cons_self c cs)
    have hcs : '/' ∉ cs := fun hh => h (List.mem_cons_of_mem c hh)
    rw [splitSep_cons, if_neg hc, ih hcs]
    simp

theorem splitSep_inter (cs : List Str) (h : ∀ c ∈ cs, c ≠ [] ∧ '/' ∉ c)
    (hne : cs ≠ []) : splitSep (interSlash cs) = cs := by
  induction cs with
  | nil => exact absurd rfl hne
  | cons c rest ih =>
    match rest with
    | [] => exact splitSep_no_slash c (h c (List.mem_cons_self c [])).2
    | c' :: rest' =>
      have hc := h c (List.mem_cons_self c _)
      have hrest : ∀ x ∈ c' :: rest', x ≠ [] ∧ '/' ∉ x :=
        fun x hx => h x (List.mem_cons_of_mem c hx)
      simp only [interSlash, splitSep_append, splitSep_no_slash c hc.2,
        ih hrest (by simp), List.singleton_append]

end OpenEdu

namespace OpenEdu

theorem compsOf_joinAbs (cs : List Str) (h : WfComps cs) (hne : cs ≠ []) :
    compsOf (joinAbs cs) = cs := by
  have hch : ∀ c ∈ cs, c ≠ [] ∧ '/' ∉ c := fun c hc => ⟨(h c hc).1, (h c hc).2.2.2⟩
  unfold compsOf joinAbs
  rw [splitSep_cons, if_pos rfl, splitSep_inter cs hch hne]
  have h1 : (([] : Str) :: cs).filter (· ≠ []) = cs.filter (· ≠ []) := by simp
  rw [h1, List.filter_eq_self.mpr (fun a ha => by simpa using (hch a ha).1)]

theorem interSlash_head (c : Str) (rest : List Str) :
    ∃ t, interSlash (c :: rest) = c ++ t := by
  match rest with
  | [] => exact ⟨[], by simp [interSlash]⟩
  | c' :: rest' => exact ⟨'/' :: interSlash (c' :: rest'), rfl⟩

theorem initSlashes_cons_ne (y : Char) (v : Str) (hy : y ≠ '/') :
    initSlashes ('/' :: y :: v) = 1 := by
  unfold initSlashes
  split
  · next heq =>
    injection heq with _ h2
    injection h2 with h2 _
    exact absurd h2 hy
  · next heq =>
    injection heq with _ h2
    injection h2 with h2 _
    exact absurd h2 hy
  · rfl
  · next hn1 hn2 hn3 => exact (hn3 (y :: v) rfl).elim

theorem initSlashes_joinAbs_append (cs : List Str) (h : WfComps cs)
    (hne : cs ≠ []) (rest : Str) : initSlashes (joinAbs cs ++ rest) = 1 := by
  match cs with
  | [] => exact absurd rfl hne
  | c :: cs' =>
    obtain ⟨t, ht⟩ := interSlash_head c cs'
    have hc := h c (List.mem_cons_self c cs')
    match c, hc, ht with
    | [], hc, ht => exact absurd rfl hc.1
    | x :: xs, hc, ht =>
      have hx : x ≠ '/' := fun hh => hc.2.2.2 (hh ▸ List.mem_cons_self x xs)
      have h2 : joinAbs ((x :: xs) :: cs') ++ rest = '/' :: x :: (xs ++ t ++ rest) := by
        simp [joinAbs, ht]
      rw [h2, initSlashes_cons_ne x _ hx]

end OpenEdu

namespace OpenEdu

/-! ## normpath computation lemmas -/

theorem normStep_normal (s : Nat) (acc : List Str) (c : Str)
    (h : c ≠ [] ∧ c ≠ ['.'] ∧ c ≠ dotdot) : normStep s acc c = acc ++ [c] := by
  unfold normStep
  rw [if_neg (by simp [h.1, h.2.1]), if_neg h.2.2]

theorem normStep_skip (s : Nat) (acc : List Str) (c : Str)
    (h : c = [] ∨ c = ['.']) : normStep s acc c = acc := by
  unfold normStep
  rw [if_pos h]

theorem foldl_normStep_normal (s : Nat) (cs : List Str)
    (h : ∀ c ∈ cs, c ≠ [] ∧ c ≠ ['.'] ∧ c ≠ dotdot) (acc : List Str) :
    cs.foldl (normStep s) acc = acc ++ cs := by
  induction cs generalizing acc with
  | nil => simp
  | cons c rest ih =>
    rw [List.foldl_cons, normStep_normal s acc c (h c (List.mem_cons_self c rest)),
      ih (fun x hx => h x (List.mem_cons_of_mem c hx))]
    simp

theorem foldl_normStep_pops (k : Nat) (acc : List Str)
    (hk : k ≤ acc.length) (hacc : dotdot ∉ acc) :
    (List.replicate k dotdot).foldl (normStep 1) acc = acc.take (acc.length - k) := by
  induction k generalizing acc with
  | zero => simp
  | succ n ih =>
    rw [List.replicate_succ, List.foldl_cons]
    have hne : acc ≠ [] := by
      intro hh
      rw [hh] at hk
      simp at hk
    have hlast : acc.getLast? ≠ some dotdot := fun hh =>
      hacc (List.mem_of_mem_getLast? hh)
    have hstep : normStep 1 acc dotdot = acc.dropLast := by
      unfold normStep
      rw [if_neg (by simp [dotdot]), if_pos rfl,
        if_neg (by simp [hlast]), if_pos hne]
    rw [hstep, ih acc.dropLast
      (by rw [List.length_dropLast]; omega)
      (fun hh => hacc (List.dropLast_sublist acc |>.mem hh))]
    rw [List.length_dropLast, List.dropLast_eq_take, List.take_take]
    congr 1
    omega

theorem wf_not_dotdot (cs : List Str) (h : WfComps cs) : dotdot ∉ cs :=
  fun hh => (h dotdot hh).2.2.1 rfl

theorem wf_normal (cs : List Str) (h : WfComps cs) :
    ∀ c ∈ cs, c ≠ [] ∧ c ≠ ['.'] ∧ c ≠ dotdot :=
  fun c hc => ⟨(h c hc).1, (h c hc).2.1, (h c hc).2.2.1⟩

/-- The central computation: normalizing an absolute base followed by a
relative fragment of `k` climbs and well-formed components pops `k`
components off the base and appends the rest. -/
theorem normpath_joinAbs_rel (B C : List Str) (k : Nat)
    (hB : WfComps B) (hBne : B ≠ []) (hC : WfComps C) (hk : k ≤ B.length)
    (hrel : List.replicate k dotdot ++ C ≠ []) :
    normpath (joinAbs B ++ '/' :: interSlash (List.replicate k dotdot ++ C)) =
      joinAbs (B.take (B.length - k) ++ C) := by
  have hchunks : ∀ c ∈ List.replicate k dotdot ++ C, c ≠ [] ∧ '/' ∉ c := by
    intro c hc
    rcases List.mem_append.mp hc with hc | hc
    · rw [List.eq_of_mem_replicate hc]
      refine ⟨by simp [dotdot], by simp [dotdot]⟩
    · exact ⟨(hC c hc).1, (hC c hc).2.2.2⟩
  have hne2 : joinAbs B ++ '/' :: interSlash (List.replicate k dotdot ++ C) ≠ [] := by
    simp [joinAbs]
  unfold normpath
  rw [if_neg hne2]
  have hslash : initSlashes (joinAbs B ++ '/' :: interSlash (List.replicate k dotdot ++ C)) = 1 :=
    initSlashes_joinAbs_append B hB hBne _
  rw [hslash]
  have hsplit : splitSep (joinAbs B ++ '/' :: interSlash (List.replicate k dotdot ++ C)) =
      ([] : Str) :: (B ++ (List.replicate k dotdot ++ C)) := by
    rw [show joinAbs B ++ '/' :: interSlash (List.replicate k dotdot ++ C) =
        '/' :: (interSlash B ++ '/' :: interSlash (List.replicate k dotdot ++ C)) from by
        simp [joinAbs],
      splitSep_cons, if_pos rfl, splitSep_append,
      splitSep_inter B (fun c hc => ⟨(hB c hc).1, (hB c hc).2.2.2⟩) hBne,
      splitSep_inter _ hchunks hrel]
  simp only [hsplit, List.foldl_cons, List.foldl_append,
    normStep_skip 1 ([] : List Str) ([] : Str) (Or.inl rfl),
    foldl_normStep_normal 1 B (wf_normal B hB),
    List.nil_append,
    foldl_normStep_pops k B hk (wf_not_dotdot B hB),
    foldl_normStep_normal 1 C (wf_normal C hC)]
  rw [if_neg (by simp)]
  simp [joinAbs]

end OpenEdu

namespace OpenEdu

/-! ## Joining against a normalized base -/

theorem interSlash_ne_nil (cs : List Str) (h : ∀ c ∈ cs, c ≠ []) (hne : cs ≠ []) :
    interSlash cs ≠ [] := by
  match cs with
  | [] => exact absurd rfl hne
  | c :: rest =>
    obtain ⟨t, ht⟩ := interSlash_head c rest
    rw [ht]
    have := h c (List.mem_cons_self c rest)
    intro hh
    rw [List.append_eq_nil] at hh
    exact this hh.1

theorem isAbs_interSlash (cs : List Str) (h : ∀ c ∈ cs, c ≠ [] ∧ '/' ∉ c)
    (hne : cs ≠ []) : isAbs (interSlash cs) = false := by
  match cs with
  | [] => exact absurd rfl hne
  | c :: rest =>
    obtain ⟨t, ht⟩ := interSlash_head c rest
    have hc := h c (List.mem_cons_self c rest)
    match c, hc with
    | [], hc => exact absurd rfl hc.1
    | x :: xs, hc =>
      have hx : x ≠ '/' := fun hh => hc.2 (hh ▸ List.mem_cons_self x xs)
      rw [ht]
      simp [isAbs, hx]

theorem getLast?_interSlash_ne_slash (cs : List Str)
    (h : ∀ c ∈ cs, c ≠ [] ∧ '/' ∉ c) (hne : cs ≠ []) :
    (interSlash cs).getLast? ≠ some '/' := by
  induction cs with
  | nil => exact absurd rfl hne
  | cons c rest ih =>
    match rest with
    | [] =>
      have hc := h c (List.mem_cons_self c [])
      show (interSlash [c]).getLast? ≠ some '/'
      unfold interSlash
      intro hh
      exact hc.2 (List.mem_of_mem_getLast? hh)
    | c' :: rest' =>
      have hrest : ∀ x ∈ c' :: rest', x ≠ [] ∧ '/' ∉ x :=
        fun x hx => h x (List.mem_cons_of_mem c hx)
      have hne2 : interSlash (c' :: rest') ≠ [] :=
        interSlash_ne_nil _ (fun x hx => (hrest x hx).1) (by simp)
      show (c ++ '/' :: interSlash (c' :: rest')).getLast? ≠ some '/'
      rw [List.getLast?_append_of_ne_nil c (by simp)]
      show (['/'] ++ interSlash (c' :: rest')).getLast? ≠ some '/'
      rw [List.getLast?_append_of_ne_nil ['/'] hne2]
      exact ih hrest (by simp)

theorem joinAbs_getLast_ne (cs : List Str) (h : WfComps cs) (hne : cs ≠ []) :
    (joinAbs cs).getLast? ≠ some '/' := by
  unfold joinAbs
  have hch : ∀ c ∈ cs, c ≠ [] ∧ '/' ∉ c := fun c hc => ⟨(h c hc).1, (h c hc).2.2.2⟩
  show (['/'] ++ interSlash cs).getLast? ≠ some '/'
  rw [List.getLast?_append_of_ne_nil ['/']
    (interSlash_ne_nil cs (fun c hc => (hch c hc).1) hne)]
  exact getLast?_interSlash_ne_slash cs hch hne

theorem pyJoin_joinAbs (cs : List Str) (h : WfComps cs) (hne : cs ≠ [])
    (r : Str) (hr : isAbs r = false) :
    pyJoin (joinAbs cs) r = joinAbs cs ++ '/' :: r := by
  unfold pyJoin
  rw [if_neg (by simp [hr]), if_neg]
  intro hh
  rcases hh with hh | hh
  · simp [joinAbs] at hh
  · exact joinAbs_getLast_ne cs h hne hh

theorem isNormAbs_joinAbs (cs : List Str) (h : WfComps cs) (hne : cs ≠ []) :
    IsNormAbs (joinAbs cs) := by
  refine ⟨?_, ?_, ?_⟩ <;> rw [compsOf_joinAbs cs h hne]
  · exact h
  · exact hne

theorem normpath_joinAbs_dot (B : List Str) (hB : WfComps B) (hBne : B ≠ []) :
    normpath (joinAbs B ++ '/' :: ['.']) = joinAbs B := by
  unfold normpath
  rw [if_neg (by simp [joinAbs])]
  have hslash := initSlashes_joinAbs_append B hB hBne ('/' :: ['.'])
  have hsplit : splitSep (joinAbs B ++ '/' :: ['.']) = ([] : Str) :: (B ++ [['.']]) := by
    rw [show joinAbs B ++ '/' :: ['.'] = '/' :: (interSlash B ++ '/' :: ['.']) from by
        simp [joinAbs],
      splitSep_cons, if_pos rfl, splitSep_append,
      splitSep_inter B (fun c hc => ⟨(hB c hc).1, (hB c hc).2.2.2⟩) hBne,
      splitSep_no_slash ['.'] (by simp)]
  simp only [hslash, hsplit, List.foldl_cons, List.foldl_append, List.foldl_nil,
    normStep_skip 1 ([] : List Str) ([] : Str) (Or.inl rfl),
    foldl_normStep_normal 1 B (wf_normal B hB), List.nil_append]
  rw [normStep_skip 1 B (['.'] : Str) (Or.inr rfl), if_neg (by simp)]
  simp [joinAbs]

/-! ## commonLen lemmas -/

theorem commonLen_le_left (a b : List Str) : commonLen a b ≤ a.length := by
  induction a generalizing b with
  | nil => simp [commonLen]
  | cons x xs ih =>
    match b with
    | [] => simp [commonLen]
    | y :: ys =>
      unfold commonLen
      by_cases hxy : x = y
      · simp only [if_pos hxy, List.length_cons]
        have := ih ys
        omega
      · simp [hxy]

theorem commonLen_le_right (a b : List Str) : commonLen a b ≤ b.length := by
  induction a generalizing b with
  | nil => simp [commonLen]
  | cons x xs ih =>
    match b with
    | [] => simp [commonLen]
    | y :: ys =>
      unfold commonLen
      by_cases hxy : x = y
      · simp only [if_pos hxy, List.length_cons]
        have := ih ys
        omega
      · simp [hxy]

theorem commonLen_take (a b : List Str) :
    a.take (commonLen a b) = b.take (commonLen a b) := by
  induction a generalizing b with
  | nil => simp [commonLen]
  | cons x xs ih =>
    match b with
    | [] => simp [commonLen]
    | y :: ys =>
      unfold commonLen
      by_cases hxy : x = y
      · simp only [if_pos hxy]
        rw [show 1 + commonLen xs ys = commonLen xs ys + 1 from by omega]
        simp [List.take_succ_cons, hxy, ih ys]
      · simp [hxy]

end OpenEdu

namespace OpenEdu

/-! ## The relpath round trip -/

theorem normpath_joinAbs (cs : List Str) (h : WfComps cs) (hne : cs ≠ []) :
    normpath (joinAbs cs) = joinAbs cs := by
  unfold normpath
  rw [if_neg (by simp [joinAbs])]
  have hslash : initSlashes (joinAbs cs) = 1 := by
    have h2 := initSlashes_joinAbs_append cs h hne []
    simpa using h2
  have hsplit : splitSep (joinAbs cs) = ([] : Str) :: cs := by
    unfold joinAbs
    rw [splitSep_cons, if_pos rfl,
      splitSep_inter cs (fun c hc => ⟨(h c hc).1, (h c hc).2.2.2⟩) hne]
  simp only [hslash, hsplit, List.foldl_cons,
    normStep_skip 1 ([] : List Str) ([] : Str) (Or.inl rfl),
    foldl_normStep_normal 1 cs (wf_normal cs h), List.nil_append]
  rw [if_neg (by simp)]
  simp [joinAbs]

theorem real_join_joinAbs (D RC : List Str) (hD : WfComps D) (hDne : D ≠ [])
    (hRC : WfComps RC) (hRCne : RC ≠ []) :
    real_join (joinAbs D) (interSlash RC) = joinAbs (D ++ RC) := by
  have hch : ∀ c ∈ RC, c ≠ [] ∧ '/' ∉ c := fun c hc => ⟨(hRC c hc).1, (hRC c hc).2.2.2⟩
  unfold real_join
  rw [pyJoin_joinAbs D hD hDne _ (isAbs_interSlash RC hch hRCne)]
  have h0 : interSlash RC = interSlash (List.replicate 0 dotdot ++ RC) := by simp
  rw [h0, normpath_joinAbs_rel D RC 0 hD hDne hRC (by omega) (by simp [hRCne])]
  simp

theorem relpath_roundtrip (a b : Str) (ha : IsNormAbs a) (hb : IsNormAbs b) :
    real_join b (relpath a b) = a := by
  obtain ⟨hwa, hane, haeq⟩ := ha
  obtain ⟨hwb, hbne, hbeq⟩ := hb
  have hnormA : compsOf (normpath a) = compsOf a := by
    conv_lhs => rw [haeq, normpath_joinAbs _ hwa hane, ← haeq]
  have hnormB : compsOf (normpath b) = compsOf b := by
    conv_lhs => rw [hbeq, normpath_joinAbs _ hwb hbne, ← hbeq]
  unfold relpath
  rw [hnormA, hnormB]
  set A := compsOf a with hA
  set B := compsOf b with hB
  by_cases hrel :
      List.replicate (B.length - commonLen B A) dotdot ++ A.drop (commonLen B A) = []
  · -- the two paths are equal and the relative path is "."
    rw [if_pos hrel]
    rw [List.append_eq_nil] at hrel
    have hlenB : B.length ≤ commonLen B A := by
      have h2 := hrel.1
      rw [List.replicate_eq_nil_iff] at h2
      omega
    have hlenA : A.length ≤ commonLen B A := by
      have h2 := List.drop_eq_nil_iff.mp hrel.2
      omega
    have hBA : B = A := by
      have htake := commonLen_take B A
      rwa [List.take_of_length_le hlenB, List.take_of_length_le hlenA] at htake
    have hab : b = a := by rw [haeq, hbeq, hBA]
    rw [hab, haeq]
    unfold real_join
    rw [pyJoin_joinAbs _ hwa hane ['.'] (by decide)]
    rw [normpath_joinAbs_dot _ hwa hane]
  · rw [if_neg hrel]
    have hch : ∀ c ∈ List.replicate (B.length - commonLen B A) dotdot
        ++ A.drop (commonLen B A), c ≠ [] ∧ '/' ∉ c := by
      intro c hc
      rcases List.mem_append.mp hc with hc | hc
      · rw [List.eq_of_mem_replicate hc]
        exact ⟨by simp [dotdot], by simp [dotdot]⟩
      · have h2 := hwa c (List.mem_of_mem_drop hc)
        exact ⟨h2.1, h2.2.2.2⟩
    unfold real_join
    rw [hbeq, pyJoin_joinAbs B hwb hbne _ (isAbs_interSlash _ hch hrel)]
    rw [normpath_joinAbs_rel B (A.drop (commonLen B A)) (B.length - commonLen B A)
      hwb hbne (fun c hc => hwa c (List.mem_of_mem_drop hc)) (by omega) hrel]
    have hib := commonLen_le_left B A
    have harith : B.length - (B.length - commonLen B A) = commonLen B A := by omega
    rw [harith, commonLen_take B A, List.take_append_drop]
    exact haeq.symm

end OpenEdu

namespace OpenEdu

/-! ## Sorting lemmas for the candidate-prefix selection -/

theorem insertBySegs_mem (x y : Str) (l : List Str) :
    y ∈ insertBySegs x l ↔ y = x ∨ y ∈ l := by
  induction l with
  | nil => simp [insertBySegs]
  | cons z zs ih =>
    unfold insertBySegs
    by_cases h : segCount z ≤ segCount x
    · simp [h]
    · simp only [if_neg h, List.mem_cons, ih]
      tauto

theorem sortBySegs_mem (y : Str) (l : List Str) :
    y ∈ sortBySegs l ↔ y ∈ l := by
  induction l with
  | nil => simp [sortBySegs]
  | cons z zs ih =>
    unfold sortBySegs at ih ⊢
    rw [List.foldr_cons, insertBySegs_mem, ih, List.mem_cons]

theorem insertBySegs_pairwise (x : Str) (l : List Str)
    (h : List.Pairwise (fun a b => segCount b ≤ segCount a) l) :
    List.Pairwise (fun a b => segCount b ≤ segCount a) (insertBySegs x l) := by
  induction l with
  | nil => simp [insertBySegs]
  | cons z zs ih =>
    obtain ⟨hz, hzs⟩ := List.pairwise_cons.mp h
    unfold insertBySegs
    by_cases hle : segCount z ≤ segCount x
    · rw [if_pos hle]
      refine List.pairwise_cons.mpr ⟨?_, h⟩
      intro y hy
      rcases List.mem_cons.mp hy with rfl | hy
      · exact hle
      · exact le_trans (hz y hy) hle
    · rw [if_neg hle]
      refine List.pairwise_cons.mpr ⟨?_, ih hzs⟩
      intro y hy
      rcases (insertBySegs_mem x y zs).mp hy with rfl | hy
      · omega
      · exact hz y hy

theorem sortBySegs_pairwise (l : List Str) :
    List.Pairwise (fun a b => segCount b ≤ segCount a) (sortBySegs l) := by
  induction l with
  | nil => simp [sortBySegs]
  | cons z zs ih => exact insertBySegs_pairwise z _ ih

theorem find?_max_segs (l : List Str) (p : Str → Bool) (k : Str)
    (hp : List.Pairwise (fun a b => segCount b ≤ segCount a) l)
    (hf : l.find? p = some k) :
    ∀ x ∈ l, p x = true → segCount x ≤ segCount k := by
  induction l with
  | nil => simp at hf
  | cons y ys ih =>
    obtain ⟨hy2, hys⟩ := List.pairwise_cons.mp hp
    by_cases hy : p y = true
    · rw [List.find?_cons_of_pos _ hy] at hf
      injection hf with hf
      subst hf
      intro x hx _
      rcases List.mem_cons.mp hx with rfl | hx
      · exact le_refl _
      · exact hy2 x hx
    · rw [List.find?_cons_of_neg _ (by simpa using hy)] at hf
      intro x hx hpx
      rcases List.mem_cons.mp hx with rfl | hx
      · exact absurd hpx hy
      · exact ih hys hf x hx hpx

/-! ## String-replacement lemmas -/

theorem replaceAux_not_pre (pat repl : Str) (c : Char) (rest : Str)
    (h : pat.isPrefixOf (c :: rest) = false) :
    replaceAux pat repl 0 (c :: rest) = c :: replaceAux pat repl 0 rest := by
  have h2 : replaceAux pat repl 0 (c :: rest)
      = if pat.isPrefixOf (c :: rest)
        then repl ++ replaceAux pat repl (pat.length - 1) rest
        else c :: replaceAux pat repl 0 rest := rfl
  rw [h2, h]
  simp

theorem replaceAux_skip_run (pat repl u t : Str) :
    replaceAux pat repl u.length (u ++ t) = replaceAux pat repl 0 t := by
  induction u with
  | nil => rfl
  | cons c u' ih =>
    show replaceAux pat repl (u'.length + 1) (c :: (u' ++ t)) = _
    rw [show replaceAux pat repl (u'.length + 1) (c :: (u' ++ t))
        = replaceAux pat repl u'.length (u' ++ t) from rfl, ih]

theorem head_ne_not_pre (pat : Str) (c0 c : Char) (rest : Str)
    (hpat : pat.head? = some c0) (hc : c ≠ c0) :
    pat.isPrefixOf (c :: rest) = false := by
  match pat, hpat with
  | p0 :: ps, hpat =>
    injection hpat with h0
    subst h0
    simp only [List.isPrefixOf, Bool.and_eq_false_iff]
    left
    simpa using fun hh => hc hh.symm

theorem isPrefixOf_append_self (l t : Str) : l.isPrefixOf (l ++ t) = true := by
  induction l with
  | nil => simp [List.isPrefixOf]
  | cons c cs ih => simp [List.isPrefixOf, ih]

theorem replaceAux_match (pat repl t : Str) (hpat : pat ≠ []) :
    replaceAux pat repl 0 (pat ++ t) = repl ++ replaceAux pat repl 0 t := by
  match pat, hpat with
  | p0 :: ps, _ =>
    have hpre : (p0 :: ps).isPrefixOf ((p0 :: ps) ++ t) = true :=
      isPrefixOf_append_self (p0 :: ps) t
    have h2 : replaceAux (p0 :: ps) repl 0 ((p0 :: ps) ++ t)
        = if (p0 :: ps).isPrefixOf ((p0 :: ps) ++ t)
          then repl ++ replaceAux (p0 :: ps) repl ((p0 :: ps : Str).length - 1) (ps ++ t)
          else p0 :: replaceAux (p0 :: ps) repl 0 (ps ++ t) := rfl
    rw [h2, hpre, if_pos rfl,
      show ((p0 :: ps : Str).length - 1) = ps.length from by simp,
      replaceAux_skip_run (p0 :: ps) repl ps t]

theorem replaceAux_decomp (pat repl a t : Str) (c0 : Char)
    (hpat : pat.head? = some c0) (hpne : pat ≠ []) (ha : c0 ∉ a) :
    replaceAux pat repl 0 (a ++ (pat ++ t)) =
      a ++ (repl ++ replaceAux pat repl 0 t) := by
  induction a with
  | nil => simpa using replaceAux_match pat repl t hpne
  | cons c a' ih =>
    have hc : c ≠ c0 := fun hh => ha (hh ▸ List.mem_cons_self c a')
    have ha' : c0 ∉ a' := fun hh => ha (List.mem_cons_of_mem c hh)
    rw [List.cons_append,
      replaceAux_not_pre pat repl c _ (head_ne_not_pre pat c0 c _ hpat hc),
      ih ha', List.cons_append]

theorem replaceAux_none (pat repl s : Str) (c0 : Char)
    (hpat : pat.head? = some c0) (hs : c0 ∉ s) :
    replaceAux pat repl 0 s = s := by
  induction s with
  | nil => rfl
  | cons c rest ih =>
    have hc : c ≠ c0 := fun hh => hs (hh ▸ List.mem_cons_self c rest)
    have hrest : c0 ∉ rest := fun hh => hs (List.mem_cons_of_mem c hh)
    rw [replaceAux_not_pre pat repl c rest (head_ne_not_pre pat c0 c rest hpat hc),
      ih hrest]

/-- The whole-content replacement: with a pattern starting at `c0` and two
designated occurrences separated by `c0`-free strings, `str.replace`
rewrites both. -/
theorem pyReplace_two (pat repl a b c : Str) (c0 : Char)
    (hpat : pat.head? = some c0) (ha : c0 ∉ a) (hb : c0 ∉ b) (hc : c0 ∉ c) :
    pyReplace (a ++ pat ++ b ++ pat ++ c) pat repl =
      a ++ repl ++ b ++ repl ++ c := by
  have hpne : pat ≠ [] := by
    match pat, hpat with
    | p :: ps, _ => simp
  unfold pyReplace
  rw [if_neg hpne]
  rw [show a ++ pat ++ b ++ pat ++ c = a ++ (pat ++ (b ++ (pat ++ c))) from by
    simp [List.append_assoc]]
  rw [replaceAux_decomp pat repl a _ c0 hpat hpne ha,
    replaceAux_decomp pat repl b c c0 hpat hpne hb,
    replaceAux_none pat repl c c0 hpat hc]
  simp [List.append_assoc]

end OpenEdu

namespace OpenEdu

/-! ## Sidebar-pass lemmas -/

mutual
theorem parseSidebar_missing (k : Str) (v : SVal) (path : Str)
    (h : hasMissingV v = true) :
    parseSidebar k v path = .error (.keyError "subsections".data) := by
  match v, h with
  | .vlist items, h =>
    have h2 : hasMissingL items = true := h
    rw [show parseSidebar k (.vlist items) path
        = (parseSidebarL items (path ++ k ++ ['/'])).bind
            (fun cs => .ok (.mk (unquote (stripSlash k)) (path ++ k) (.kids cs)))
      from rfl]
    rw [parseSidebarL_missing items (path ++ k ++ ['/']) h2]
    rfl
  | .vsec p? ex .missing, _ => rfl
  | .vsec p? ex (.given items), h =>
    have h2 : hasMissingL items = true := h
    rw [show parseSidebar k (.vsec p? ex (.given items)) path
        = (parseSidebarL items (path ++ k ++ ['/'])).bind
            (fun cs => .ok (.mk (unquote (stripSlash k)) (path ++ k) (.kids cs)))
      from rfl]
    rw [parseSidebarL_missing items (path ++ k ++ ['/']) h2]
    rfl
theorem parseSidebarL_missing (items : SList) (path : Str)
    (h : hasMissingL items = true) :
    parseSidebarL items path = .error (.keyError "subsections".data) := by
  match items, h with
  | .scons k v rest, h =>
    have h2 : hasMissingV v = true ∨ hasMissingL rest = true := by
      have h3 : (hasMissingV v || hasMissingL rest) = true := h
      simpa using h3
    rcases h2 with h2 | h2
    · rw [show parseSidebarL (.scons k v rest) path
          = (parseSidebar k v path).bind (fun n =>
              (parseSidebarL rest path).bind (fun ns => .ok (.scons n ns)))
        from rfl]
      rw [parseSidebar_missing k v path h2]
      rfl
    · rw [show parseSidebarL (.scons k v rest) path
          = (parseSidebar k v path).bind (fun n =>
              (parseSidebarL rest path).bind (fun ns => .ok (.scons n ns)))
        from rfl]
      cases hv : parseSidebar k v path with
      | error e =>
        -- the earlier error must itself be the KeyError: show it directly
        have h4 : hasMissingV v = true ∨ hasMissingV v = false := by
          cases hasMissingV v <;> simp
        rcases h4 with h4 | h4
        · rw [parseSidebar_missing k v path h4] at hv
          injection hv with hv
          rw [hv]
          rfl
        · obtain ⟨n, hn⟩ := parseSidebar_ok k v path h4
          rw [hn] at hv
          cases hv
      | ok n =>
        rw [parseSidebarL_missing rest path h2]
        rfl
theorem parseSidebar_ok (k : Str) (v : SVal) (path : Str)
    (h : hasMissingV v = false) : ∃ n, parseSidebar k v path = .ok n := by
  match v, h with
  | .vstr v', _ => exact ⟨_, rfl⟩
  | .vlist items, h =>
    obtain ⟨ns, hns⟩ := parseSidebarL_ok items (path ++ k ++ ['/']) h
    refine ⟨.mk (unquote (stripSlash k)) (path ++ k) (.kids ns), ?_⟩
    rw [show parseSidebar k (.vlist items) path
        = (parseSidebarL items (path ++ k ++ ['/'])).bind
            (fun cs => .ok (.mk (unquote (stripSlash k)) (path ++ k) (.kids cs)))
      from rfl, hns]
    rfl
  | .vsec p? ex (.given items), h =>
    obtain ⟨ns, hns⟩ := parseSidebarL_ok items (path ++ k ++ ['/']) h
    refine ⟨.mk (unquote (stripSlash k)) (path ++ k) (.kids ns), ?_⟩
    rw [show parseSidebar k (.vsec p? ex (.given items)) path
        = (parseSidebarL items (path ++ k ++ ['/'])).bind
            (fun cs => .ok (.mk (unquote (stripSlash k)) (path ++ k) (.kids cs)))
      from rfl, hns]
    rfl
theorem parseSidebarL_ok (items : SList) (path : Str)
    (h : hasMissingL items = false) : ∃ ns, parseSidebarL items path = .ok ns := by
  match items, h with
  | .snil, _ => exact ⟨.snil, rfl⟩
  | .scons k v rest, h =>
    have h2 : hasMissingV v = false ∧ hasMissingL rest = false := by
      have h3 : (hasMissingV v || hasMissingL rest) = false := h
      simpa using h3
    obtain ⟨n, hn⟩ := parseSidebar_ok k v path h2.1
    obtain ⟨ns, hns⟩ := parseSidebarL_ok rest path h2.2
    refine ⟨.scons n ns, ?_⟩
    rw [show parseSidebarL (.scons k v rest) path
        = (parseSidebar k v path).bind (fun n =>
            (parseSidebarL rest path).bind (fun ns => .ok (.scons n ns)))
      from rfl, hn, hns]
    rfl
end

end OpenEdu

namespace OpenEdu

/-! ## Leaf counting for the navigation tree -/

theorem parseSidebarL_nil (path : Str) : parseSidebarL .snil path = .ok .snil := rfl

theorem parseSidebarL_snil_iff (items : SList) (path : Str) (ns : SbList)
    (h : parseSidebarL items path = .ok ns) : ns = .snil ↔ items = .snil := by
  match items with
  | .snil =>
    rw [parseSidebarL_nil] at h
    injection h with h
    simp [← h]
  | .scons k v rest =>
    rw [show parseSidebarL (.scons k v rest) path
        = (parseSidebar k v path).bind (fun n =>
            (parseSidebarL rest path).bind (fun ns => .ok (.scons n ns)))
      from rfl] at h
    cases hv : parseSidebar k v path with
    | error e => rw [hv] at h; cases h
    | ok n =>
      rw [hv] at h
      cases hl : parseSidebarL rest path with
      | error e => rw [hl] at h; cases h
      | ok ns' =>
        rw [hl] at h
        injection h with h
        constructor
        · intro hh; rw [← h] at hh; cases hh
        · intro hh; cases hh

mutual
theorem walk_len_V (k : Str) (v : SVal) (path : Str) (n : SbNode)
    (h : parseSidebar k v path = .ok n) :
    (walkStruct n).length = countStrV v + countEmptyV v := by
  match v with
  | .vstr v' =>
    injection h with h3
    subst h3
    rfl
  | .vlist items =>
    rw [show parseSidebar k (.vlist items) path
        = (parseSidebarL items (path ++ k ++ ['/'])).bind
            (fun cs => .ok (.mk (unquote (stripSlash k)) (path ++ k) (.kids cs)))
      from rfl] at h
    cases hl : parseSidebarL items (path ++ k ++ ['/']) with
    | error e => rw [hl] at h; cases h
    | ok cs =>
      rw [hl] at h
      injection h with h
      rw [← h]
      match items, cs, parseSidebarL_snil_iff items _ cs hl with
      | .snil, cs, hiff =>
        have : cs = .snil := hiff.mpr rfl
        subst this
        rfl
      | .scons k' v' rest', .snil, hiff =>
        exact absurd (hiff.mp rfl) (by simp)
      | .scons k' v' rest', .scons c cs', hiff =>
        have h4 := walk_len_L (.scons k' v' rest') (path ++ k ++ ['/'])
          (.scons c cs') hl
        show (walkStructL (.scons c cs')).length = _
        rw [h4]
        rfl
  | .vsec p? ex .missing => cases h
  | .vsec p? ex (.given items) =>
    rw [show parseSidebar k (.vsec p? ex (.given items)) path
        = (parseSidebarL items (path ++ k ++ ['/'])).bind
            (fun cs => .ok (.mk (unquote (stripSlash k)) (path ++ k) (.kids cs)))
      from rfl] at h
    cases hl : parseSidebarL items (path ++ k ++ ['/']) with
    | error e => rw [hl] at h; cases h
    | ok cs =>
      rw [hl] at h
      injection h with h
      rw [← h]
      match items, cs, parseSidebarL_snil_iff items _ cs hl with
      | .snil, cs, hiff =>
        have : cs = .snil := hiff.mpr rfl
        subst this
        rfl
      | .scons k' v' rest', .snil, hiff =>
        exact absurd (hiff.mp rfl) (by simp)
      | .scons k' v' rest', .scons c cs', hiff =>
        have h4 := walk_len_L (.scons k' v' rest') (path ++ k ++ ['/'])
          (.scons c cs') hl
        show (walkStructL (.scons c cs')).length = _
        rw [h4]
        rfl
theorem walk_len_L (items : SList) (path : Str) (ns : SbList)
    (h : parseSidebarL items path = .ok ns) :
    (walkStructL ns).length = countStrL items + countEmptyL items := by
  match items with
  | .snil =>
    rw [parseSidebarL_nil] at h
    injection h with h
    rw [← h]
    rfl
  | .scons k v rest =>
    rw [show parseSidebarL (.scons k v rest) path
        = (parseSidebar k v path).bind (fun n =>
            (parseSidebarL rest path).bind (fun ns => .ok (.scons n ns)))
      from rfl] at h
    cases hv : parseSidebar k v path with
    | error e => rw [hv] at h; cases h
    | ok n =>
      rw [hv] at h
      cases hl : parseSidebarL rest path with
      | error e => rw [hl] at h; cases h
      | ok ns' =>
        rw [hl] at h
        injection h with h
        rw [← h]
        show (walkStruct n ++ walkStructL ns').length = _
        rw [List.length_append, walk_len_V k v path n hv, walk_len_L rest path ns' hl]
        show countStrV v + countEmptyV v + (countStrL rest + countEmptyL rest)
          = countStrV v + countStrL rest + (countEmptyV v + countEmptyL rest)
        omega
end

end OpenEdu

namespace OpenEdu

/-! ## Claim theorems -/

/-- C2 (counterexample): the scenario structure does NOT produce the copy
plan entry `(/src/intro.md, /dst/docs)` claimed — `os.path.join` with the
empty directory part of the key `"Intro"` appends a trailing separator, so
the destination is the byte string `/dst/docs/`. -/
theorem claim_C2_counterexample :
    ("/src/intro.md".data, "/dst/docs".data)
        ∉ toCopy "/src".data "/dst/docs".data structScenario
    ∧ ("/src/intro.md".data, "/dst/docs/".data)
        ∈ toCopy "/src".data "/dst/docs".data structScenario := by
  decide

/-- C2 (amended): with content root `/src` and docs root `/dst/docs`, the
scenario structure yields exactly the copy plan
`{(/src/intro.md, /dst/docs/), (/src/lessons/l1.md, /dst/docs/Lessons/)}`
(destinations carry the trailing separator produced by joining with the
empty directory part of the key), and a navigation tree whose leaf for
`Intro` has document id `intro` and whose leaf for `Lesson 1` has document
id `Lessons/l1`. -/
theorem claim_C2_scenario :
    toCopy "/src".data "/dst/docs".data structScenario
      = [("/src/intro.md".data, "/dst/docs/".data),
         ("/src/lessons/l1.md".data, "/dst/docs/Lessons/".data)]
    ∧ parseSidebarL structScenario [] = .ok sbScenarioOut :=
  ⟨by decide, rfl⟩

/-- C3 (confirmed): the link `[see](../shared/img/fig1.png)` in the file
originating from `/src/lessons/l1.md`, with `/src/shared` copied as a
whole unit to `/dst/docs/Shared`, is rewritten to
`../Shared/img/fig1.png`, relative to the file's new containing
directory. -/
theorem claim_C3_scenario :
    (resolveLinks fsShared "/dst/docs".data planShared sbShared).map
        (fun r => r.1.read "/dst/docs/Lessons/l1.md".data)
      = .ok "[see](../Shared/img/fig1.png)".data := rfl

/-- C4 (counterexample): with candidate keys `/src/a` and `/src/ab` (equal
segment counts) and reference `/src/ab/x.png`, the selection returns
`/src/a` even though `/src/ab` is also a prefix and is strictly longer:
the code orders candidates by segment count only, so the longest matching
key is not necessarily selected. -/
theorem claim_C4_counterexample :
    selectKey (sortBySegs ["/src/a".data, "/src/ab".data]) "/src/ab/x.png".data
        = some "/src/a".data
    ∧ startsWith "/src/ab".data "/src/ab/x.png".data = true
    ∧ ("/src/a".data : Str).length < ("/src/ab".data : Str).length := by
  decide

/-- C4 (amended): the selection returns a candidate that is a raw string
prefix of the reference path and has the maximal *segment count* among all
matching keys (the sort key is the number of path segments, ties falling
back to the mapping's iteration order; the selected key need not be the
longest by characters). -/
theorem claim_C4_selection (keys : List Str) (ref k : Str)
    (h : selectKey (sortBySegs keys) ref = some k) :
    startsWith k ref = true ∧ k ∈ keys
    ∧ ∀ x ∈ keys, startsWith x ref = true → segCount x ≤ segCount k := by
  unfold selectKey at h
  have h1 : startsWith k ref = true := by simpa using List.find?_some h
  refine ⟨h1, (sortBySegs_mem k keys).mp (List.mem_of_find?_eq_some h), ?_⟩
  intro x hx hpx
  exact find?_max_segs (sortBySegs keys) _ k (sortBySegs_pairwise keys) h x
    ((sortBySegs_mem x keys).mpr hx) hpx

/-- C4 (witness): the amended selection property at the shared-directory
scenario's mapping. -/
theorem claim_C4_witness :
    startsWith "/src/shared".data "/src/shared/img/fig1.png".data = true
    ∧ "/src/shared".data ∈ ["/src/lessons/l1.md".data, "/src/shared".data]
    ∧ ∀ x ∈ ["/src/lessons/l1.md".data, "/src/shared".data],
        startsWith x "/src/shared/img/fig1.png".data = true →
        segCount x ≤ segCount "/src/shared".data :=
  claim_C4_selection ["/src/lessons/l1.md".data, "/src/shared".data]
    "/src/shared/img/fig1.png".data "/src/shared".data (by decide)

/-- C6 (counterexample): for the space-containing relative path
`../a b.mdx` the code produces `<../a bx>` — `str.replace(".md", "")`
deletes the substring `.md` inside the `.mdx` extension — which is neither
the angle-bracketed path with its document-extension suffix removed
(`<../a b>`) nor the angle-bracketed path unchanged (`<../a b.mdx>`). -/
theorem claim_C6_counterexample :
    fixSpaces "../a b.mdx".data = "<../a bx>".data
    ∧ "<../a bx>".data ≠ ('<' :: "../a b".data ++ ['>'])
    ∧ "<../a bx>".data ≠ ('<' :: "../a b.mdx".data ++ ['>']) := by
  decide

/-- C7 (counterexample): the structure `[{"A": []}]` parses successfully
into a navigation tree with one leaf (the childless `A` node), while it
has zero string-valued entries and zero extra-listed entries, so the
claimed leaf-count equation fails. -/
theorem claim_C7_counterexample :
    parseSidebarL structEmptyList []
        = .ok (.scons (.mk "A".data "A".data (.kids .snil)) .snil)
    ∧ (walkStructL (.scons (.mk "A".data "A".data (.kids .snil)) .snil)).length = 1
    ∧ countStrL structEmptyList + countExtraL structEmptyList = 0 :=
  ⟨rfl, by decide, by decide⟩

/-- C7 (amended): whenever the sidebar pass succeeds, the number of leaves
of the navigation tree (entries enumerated by the walk, i.e. nodes without
a truthy `children` list) equals the number of string-valued entries plus
the number of list- or subsections-valued entries with an empty child
list; `extra`-listed entries contribute copy-plan entries but no
navigation leaves. -/
theorem claim_C7_leaf_count (items : SList) (path : Str) (ns : SbList)
    (h : parseSidebarL items path = .ok ns) :
    (walkStructL ns).length = countStrL items + countEmptyL items :=
  walk_len_L items path ns h

/-- C7 (witness): the leaf-count equation at the specification scenario:
two leaves, two string-valued entries, no childless branches. -/
theorem claim_C7_witness :
    parseSidebarL structScenario [] = .ok sbScenarioOut
    ∧ (walkStructL sbScenarioOut).length
        = countStrL structScenario + countEmptyL structScenario :=
  ⟨rfl, claim_C7_leaf_count structScenario [] sbScenarioOut rfl⟩

/-- C9 (confirmed): a structure containing a section dict without the
`"subsections"` key passes the copy pass (which substitutes the empty
default via `v.get("subsections", [])`) but makes the sidebar pass raise
`KeyError("subsections")` from the unguarded subscript `v["subsections"]`
— not the documented `PluginRunError` structure error. -/
theorem claim_C9_missing_subsections (items : SList) (path : Str)
    (h : hasMissingL items = true) :
    parseSidebarL items path = .error (.keyError "subsections".data) :=
  parseSidebarL_missing items path h

/-- C9 (witness): the `KeyError` at the one-entry structure
`[{"A": {}}]`. -/
theorem claim_C9_witness :
    hasMissingL structMissing = true
    ∧ parseSidebarL structMissing [] = .error (.keyError "subsections".data) :=
  ⟨by decide, claim_C9_missing_subsections structMissing [] (by decide)⟩

end OpenEdu

namespace OpenEdu

/-- C5 (counterexample): for the link `../shared/img/fig1.png` resolving
to `/src/shared/img/fig1.png`, the reference path is a prefix of *no* key
of the mapping (it is longer than every key), yet the resolver rewrites
the link and emits no warning — because the code tests the opposite
direction, keys that are prefixes of the reference. -/
theorem claim_C5_counterexample :
    (∀ x ∈ dictKeys (buildMaps fsShared planShared).1,
        startsWith (real_join "/src/lessons".data "../shared/img/fig1.png".data) x = false)
    ∧ processLink fsShared (buildMaps fsShared planShared).1
        (sortBySegs (dictKeys (buildMaps fsShared planShared).1))
        "/src/lessons".data "/dst/docs/Lessons".data
        "[see](../shared/img/fig1.png)".data "../shared/img/fig1.png".data
      = ("[see](../Shared/img/fig1.png)".data, [])
    ∧ "[see](../Shared/img/fig1.png)".data ≠ "[see](../shared/img/fig1.png)".data := by
  decide

/-- C5 (amended): for every matched link whose resolved source-side
reference path has *no key of the mapping as a string prefix*, the
resolver emits exactly one warning naming the resolved reference and the
link text, and leaves the content untouched (the processing step is total:
the run continues). -/
theorem claim_C5_warning (fs : FS) (s2d : List (Str × Str))
    (src_dir dst_dir content link : Str)
    (h : ∀ x ∈ dictKeys s2d, startsWith x (real_join src_dir link) = false) :
    processLink fs s2d (sortBySegs (dictKeys s2d)) src_dir dst_dir content link
      = (content, [(real_join src_dir link, link)]) := by
  have hfind : (sortBySegs (dictKeys s2d)).find?
      (fun x => startsWith x (real_join src_dir link)) = none := by
    rw [List.find?_eq_none]
    intro x hx
    rw [h x ((sortBySegs_mem x _).mp hx)]
    simp
  simp only [processLink, computeDstLink, selectKey]
  rw [hfind]

/-- C5 (witness): the warning at a link whose target was never copied. -/
theorem claim_C5_witness :
    processLink fsShared (buildMaps fsShared planShared).1
        (sortBySegs (dictKeys (buildMaps fsShared planShared).1))
        "/src/lessons".data "/dst/docs/Lessons".data
        "[typo](../other/a.png)".data "../other/a.png".data
      = ("[typo](../other/a.png)".data,
         [(real_join "/src/lessons".data "../other/a.png".data,
           "../other/a.png".data)]) :=
  claim_C5_warning fsShared (buildMaps fsShared planShared).1
    "/src/lessons".data "/dst/docs/Lessons".data
    "[typo](../other/a.png)".data "../other/a.png".data (by decide)

/-- C6 (amended): a space-containing relative path is wrapped in angle
brackets and *every* occurrence of the substring `.md` is deleted — not
only a document-extension suffix: for any decomposition around two `.md`
occurrences with dot-free surroundings, both occurrences disappear. -/
theorem claim_C6_replace_all (a b c : Str)
    (hsp : ' ' ∈ a) (ha : '.' ∉ a) (hb : '.' ∉ b) (hc : '.' ∉ c) :
    fixSpaces (a ++ ".md".data ++ b ++ ".md".data ++ c)
      = '<' :: (a ++ b ++ c) ++ ['>'] := by
  have hmem : ' ' ∈ a ++ ".md".data ++ b ++ ".md".data ++ c := by
    simp [hsp]
  have hcontains : (a ++ ".md".data ++ b ++ ".md".data ++ c).contains ' ' = true := by
    exact List.elem_eq_true_of_mem hmem
  unfold fixSpaces
  rw [hcontains, if_pos rfl]
  have hshape : ('<' :: (a ++ ".md".data ++ b ++ ".md".data ++ c) ++ ['>'] : Str)
      = ('<' :: a) ++ ".md".data ++ b ++ ".md".data ++ (c ++ ['>']) := by
    simp
  rw [hshape, pyReplace_two ".md".data [] ('<' :: a) b (c ++ ['>']) '.' rfl
    (by simpa using ha) hb (by simpa using hc)]
  simp

/-- C6 (witness): the replacement at `a b.md.md`: both `.md` occurrences
vanish inside the angle brackets. -/
theorem claim_C6_witness :
    fixSpaces ("a b".data ++ ".md".data ++ "".data ++ ".md".data ++ "".data)
      = '<' :: ("a b".data ++ "".data ++ "".data) ++ ['>'] :=
  claim_C6_replace_all "a b".data "".data "".data (by decide) (by decide)
    (by decide) (by decide)

/-- C10 (confirmed): when a link matches, the rewrite is a global
`str.replace` over the whole file content: a second occurrence of the
link's literal path text elsewhere in the file (here separated by
arbitrary dot-free text) is rewritten as well. -/
theorem claim_C10_global_replace (fs : FS) (s2d : List (Str × Str))
    (possible : List Str) (src_dir dst_dir link r a b c : Str)
    (hcd : computeDstLink fs s2d possible src_dir link dst_dir = some r)
    (hl : link.head? = some '.')
    (ha : '.' ∉ a) (hb : '.' ∉ b) (hc : '.' ∉ c) :
    processLink fs s2d possible src_dir dst_dir (a ++ link ++ b ++ link ++ c) link
      = (a ++ r ++ b ++ r ++ c, []) := by
  unfold processLink
  rw [hcd]
  rw [show (a ++ link ++ b ++ link ++ c : Str) = a ++ link ++ b ++ link ++ c from rfl]
  have h2 := pyReplace_two link r a b c '.' hl ha hb hc
  simp only [h2]

/-- C10 (witness): the global replacement at the shared-directory
scenario: the link text occurs once inside a markdown link and once in
following prose; both occurrences are rewritten. -/
theorem claim_C10_witness :
    processLink fsShared (buildMaps fsShared planShared).1
        (sortBySegs (dictKeys (buildMaps fsShared planShared).1))
        "/src/lessons".data "/dst/docs/Lessons".data
        ("[see](".data ++ "../shared/img/fig1.png".data ++ ") and ".data
          ++ "../shared/img/fig1.png".data ++ ")".data)
        "../shared/img/fig1.png".data
      = ("[see](".data ++ "../Shared/img/fig1.png".data ++ ") and ".data
          ++ "../Shared/img/fig1.png".data ++ ")".data, []) :=
  claim_C10_global_replace fsShared (buildMaps fsShared planShared).1
    (sortBySegs (dictKeys (buildMaps fsShared planShared).1))
    "/src/lessons".data "/dst/docs/Lessons".data
    "../shared/img/fig1.png".data "../Shared/img/fig1.png".data
    "[see](".data ") and ".data ")".data
    (by decide) (by decide) (by decide) (by decide) (by decide)

end OpenEdu

namespace OpenEdu

/-- C8 (counterexample): a navigation leaf `ghost` with no backing
`.md`/`.mdx` file is NOT skipped silently when its containing docs
directory has no entry in the destination-to-source mapping: the unguarded
subscript `dst_to_src[os.path.dirname(_file)]` — executed *before* the
existence check — raises `KeyError` and aborts the run. -/
theorem claim_C8_counterexample :
    fsGhost.pathExists (pyJoin "/dst/docs".data ("ghost".data ++ ".md".data)) = false
    ∧ fsGhost.pathExists (pyJoin "/dst/docs".data ("ghost".data ++ ".mdx".data)) = false
    ∧ resolveLinks fsGhost "/dst/docs".data planGhost sbGhost
        = .error (.keyError "/dst/docs".data) :=
  ⟨by decide, by decide, rfl⟩

/-- C8 (amended): a navigation leaf with no backing `.md`/`.mdx` file is
skipped silently — no error, no warning, filesystem untouched — *provided*
the leaf's resolved file path or its containing directory has an entry in
the destination-to-source mapping; otherwise the directory lookup raises
an unhandled `KeyError`. -/
theorem claim_C8_skip (fs : FS) (docsDir : Str) (s2d d2s : List (Str × Str))
    (possible : List Str) (id : Str)
    (hmd : fs.pathExists (pyJoin docsDir (id ++ ".md".data)) = false)
    (hmdx : fs.pathExists (pyJoin docsDir (id ++ ".mdx".data)) = false)
    (hdir : (dictGet? d2s (pyJoin docsDir (id ++ ".mdx".data))).isSome = true
          ∨ (dictGet? d2s (dirname (pyJoin docsDir (id ++ ".mdx".data)))).isSome = true) :
    resolveFile fs docsDir s2d d2s possible id = .ok (fs, []) := by
  simp only [resolveFile, hmd, if_false, Bool.false_eq_true]
  cases hf : dictGet? d2s (pyJoin docsDir (id ++ ".mdx".data)) with
  | some nf => simp [hf, hmdx]
  | none =>
    rcases hdir with hdir | hdir
    · rw [hf] at hdir
      simp at hdir
    · obtain ⟨sd, hsd⟩ := Option.isSome_iff_exists.mp hdir
      simp [hf, hsd, hmdx]

/-- C8 (witness): the silent skip for a dangling leaf whose docs directory
is a copy destination. -/
theorem claim_C8_witness :
    resolveFile fsGhost "/dst/docs".data
      (buildMaps fsGhost planGhost).1 (buildMaps fsGhost planGhost).2
      (sortBySegs (dictKeys (buildMaps fsGhost planGhost).1)) "Lessons/ghost".data
      = .ok (fsGhost, []) :=
  claim_C8_skip fsGhost "/dst/docs".data
    (buildMaps fsGhost planGhost).1 (buildMaps fsGhost planGhost).2
    (sortBySegs (dictKeys (buildMaps fsGhost planGhost).1)) "Lessons/ghost".data
    (by decide) (by decide) (Or.inr (by decide))

end OpenEdu

namespace OpenEdu

/-- Stripping the single separator in front of a well-formed component
string is the identity on the rest. -/
theorem lstripSlash_slash_inter (RC : List Str) (h : WfComps RC) (hne : RC ≠ []) :
    lstripSlash ('/' :: interSlash RC) = interSlash RC := by
  match RC with
  | [] => exact absurd rfl hne
  | c :: rest =>
    obtain ⟨t, ht⟩ := interSlash_head c rest
    have hc := h c (List.mem_cons_self c rest)
    match c, hc, ht with
    | [], hc, ht => exact absurd rfl hc.1
    | x :: xs, hc, ht =>
      have hx : x ≠ '/' := fun hh => hc.2.2.2 (hh ▸ List.mem_cons_self x xs)
      rw [ht]
      show lstripSlash ('/' :: (x :: (xs ++ t))) = x :: (xs ++ t)
      unfold lstripSlash
      rw [List.dropWhile_cons_of_pos (by simp), List.dropWhile_cons_of_neg (by simp [hx])]

/-- C1 (counterexample): with sibling units `/src/a → /dst/docs/A` and
`/src/ab → /dst/docs/AB` (the first preceding the second in the mapping's
iteration order), the link `./x.png` in the file of `/dst/docs/AB`
resolves source-side to `/src/ab/x.png`, which falls under the plan entry
`(/src/ab, /dst/docs/AB)`; the copy engine places that target at
`/dst/docs/AB/x.png`, but the resolver — matching keys as raw string
prefixes, ordered only by segment count — picks `/src/a` and rewrites the
link to `../A/b/x.png`, which resolves to `/dst/docs/A/b/x.png`: the round
trip fails. -/
theorem claim_C1_counterexample :
    (resolveLinks fsAB "/dst/docs".data planAB sbAB).map
        (fun r => r.1.read "/dst/docs/AB/f.md".data)
      = .ok "[x](../A/b/x.png)".data
    ∧ real_join "/src/ab".data "./x.png".data = "/src/ab/x.png".data
    ∧ ("/src/ab".data, "/dst/docs/AB".data) ∈ planAB
    ∧ copyDest fsAB "/src/ab".data "/dst/docs/AB".data "/src/ab/x.png".data
        = "/dst/docs/AB/x.png".data
    ∧ real_join "/dst/docs/AB".data "../A/b/x.png".data
        = "/dst/docs/A/b/x.png".data
    ∧ ("/dst/docs/A/b/x.png".data : Str) ≠ "/dst/docs/AB/x.png".data :=
  ⟨rfl, by decide, by decide, by decide, by decide, by decide⟩

/-- C1 (amended): the round trip holds for a matched link *provided* the
selected longest-prefix key is the directory unit the reference falls
under at a path-segment boundary and the computed relative path contains
no space: the resolver rewrites the link to the relative path of the
re-rooted reference, and resolving that path against the file's new
containing directory lands exactly on the spot where the copy engine
placed the link's target. -/
theorem claim_C1_roundtrip (fs : FS) (s2d : List (Str × Str)) (possible : List Str)
    (src_dir dst_dir link k d : Str) (RC : List Str)
    (hsel : selectKey possible (real_join src_dir link) = some k)
    (hget : dictGet? s2d k = some d)
    (hkfile : fs.isFile k = false) (hdfile : fs.isFile d = false)
    (hkdir : fs.isDir k = true)
    (hd : IsNormAbs d) (hdd : IsNormAbs dst_dir)
    (hRC : WfComps RC) (hRCne : RC ≠ [])
    (href : real_join src_dir link = k ++ '/' :: interSlash RC)
    (hns : (relpath (real_join d (interSlash RC)) dst_dir).contains ' ' = false) :
    computeDstLink fs s2d possible src_dir link dst_dir
        = some (relpath (real_join d (interSlash RC)) dst_dir)
    ∧ real_join dst_dir (relpath (real_join d (interSlash RC)) dst_dir)
        = copyDest fs k d (real_join src_dir link) := by
  obtain ⟨hwd, hdne, hdeq⟩ := hd
  have hrem : lstripSlash (removePre (real_join src_dir link) k) = interSlash RC := by
    rw [href]
    unfold removePre
    rw [if_pos (isPrefixOf_append_self k ('/' :: interSlash RC))]
    rw [show (k ++ '/' :: interSlash RC : Str).drop k.length = '/' :: interSlash RC from by
      rw [show (k ++ '/' :: interSlash RC : Str) = k ++ ('/' :: interSlash RC) from rfl]
      exact List.drop_left k _]
    exact lstripSlash_slash_inter RC hRC hRCne
  have hdst_ref : real_join d (lstripSlash (removePre (real_join src_dir link) k))
      = joinAbs (compsOf d ++ RC) := by
    rw [hrem]
    conv_lhs => rw [hdeq]
    exact real_join_joinAbs (compsOf d) RC hwd hdne hRC hRCne
  have hdst_ref2 : real_join d (interSlash RC) = joinAbs (compsOf d ++ RC) := by
    rw [← hrem]
    exact hdst_ref
  have hwDRC : WfComps (compsOf d ++ RC) := by
    intro c hc
    rcases List.mem_append.mp hc with hc | hc
    · exact hwd c hc
    · exact hRC c hc
  have hDRCne : compsOf d ++ RC ≠ [] := by
    simp [hdne]
  have hnorm_ref : IsNormAbs (real_join d (interSlash RC)) := by
    rw [hdst_ref2]
    exact isNormAbs_joinAbs _ hwDRC hDRCne
  have hcompute : computeDstLink fs s2d possible src_dir link dst_dir
      = some (fixSpaces (relpath (real_join d (interSlash RC)) dst_dir)) := by
    simp only [computeDstLink, hsel, hkfile, hget, hdfile, Option.getD_some,
      Bool.false_eq_true, if_false]
    rw [hrem]
  have hfix : fixSpaces (relpath (real_join d (interSlash RC)) dst_dir)
      = relpath (real_join d (interSlash RC)) dst_dir := by
    unfold fixSpaces
    rw [hns]
    simp
  refine ⟨by rw [hcompute, hfix], ?_⟩
  rw [relpath_roundtrip _ dst_dir hnorm_ref hdd]
  unfold copyDest
  rw [if_pos hkdir, hdst_ref, ← hdst_ref2]

/-- C1 (witness): the round trip at the shared-directory scenario. -/
theorem claim_C1_witness :
    computeDstLink fsShared (buildMaps fsShared planShared).1
        (sortBySegs (dictKeys (buildMaps fsShared planShared).1))
        "/src/lessons".data "../shared/img/fig1.png".data "/dst/docs/Lessons".data
      = some (relpath
          (real_join "/dst/docs/Shared".data (interSlash ["img".data, "fig1.png".data]))
          "/dst/docs/Lessons".data)
    ∧ real_join "/dst/docs/Lessons".data
        (relpath
          (real_join "/dst/docs/Shared".data (interSlash ["img".data, "fig1.png".data]))
          "/dst/docs/Lessons".data)
      = copyDest fsShared "/src/shared".data "/dst/docs/Shared".data
          (real_join "/src/lessons".data "../shared/img/fig1.png".data) :=
  claim_C1_roundtrip fsShared (buildMaps fsShared planShared).1
    (sortBySegs (dictKeys (buildMaps fsShared planShared).1))
    "/src/lessons".data "/dst/docs/Lessons".data "../shared/img/fig1.png".data
    "/src/shared".data "/dst/docs/Shared".data ["img".data, "fig1.png".data]
    (by decide) (by decide) (by decide) (by decide) (by decide)
    (by decide) (by decide) (by decide) (by decide) (by decide)
    (by decide)

end OpenEdu
